import Mathlib

/-!
Verification of the SCRAPY extraction pipeline core against its
natural-language specification.

The Python sources under `backend/scraper_core/` are shallowly embedded:
records (`Dict[str, Any]`) become association lists of string keys and a
small JSON-like value type; fallible code becomes `Option`/`Except`;
Python `float` parsing of the cleaned numeric strings (which contain only
ASCII digits and at most one dot) is modelled exactly with `Rat`.
MD5 digests are modelled by the canonically serialized string that the
code feeds to `hashlib.md5`: every property proved here depends only on
equality of digests, which is preserved under applying any digest
function to that string.
-/

/-- JSON-like field values, restricted to the shapes the pipeline
produces: `None`, strings, integers, and lists of strings
(contact email/phone/social lists, text heading/paragraph lists). -/
inductive Val where
  | vNull : Val
  | vStr (s : String) : Val
  | vInt (n : Int) : Val
  | vStrList (l : List String) : Val
deriving DecidableEq, Repr

/-- A record: a Python `Dict[str, Any]` as an association list.
Python dicts have pairwise-distinct keys; hypotheses state this where a
proof needs it. -/
abbrev Rec := List (String × Val)

/-- `record.get(k)` / `record[k]`: first matching key. -/
def rlookup (r : Rec) (k : String) : Option Val :=
  match r with
  | [] => none
  | (k', v) :: rest => if k' = k then some v else rlookup rest k

/-- The keys of a record, in order. -/
def keysOf (r : Rec) : List String :=
  r.map (fun p => p.1)

/-- Keys kept in first-occurrence order with duplicates dropped, as a
Python dict comprehension over a key list behaves. -/
def dedupFirstAux (seen : List String) : List String → List String
  | [] => []
  | k :: ks => if k ∈ seen then dedupFirstAux seen ks else k :: dedupFirstAux (k :: seen) ks

/-- Duplicate-free key list in first-occurrence order. -/
def dedupFirst (l : List String) : List String :=
  dedupFirstAux [] l

/-- Serialization of one value, standing in for `json.dumps` of that
value. -/
def serializeVal : Val → String
  | .vNull => "null"
  | .vStr s => "\"" ++ s ++ "\""
  | .vInt n => toString n
  | .vStrList l => "[" ++ String.intercalate ", " (l.map (fun s => "\"" ++ s ++ "\"")) ++ "]"

/-- Insert into a list sorted by the boolean `le`. -/
def insertLe (le : (String × Val) → (String × Val) → Bool) (x : String × Val) :
    List (String × Val) → List (String × Val)
  | [] => [x]
  | y :: ys => if le x y then x :: y :: ys else y :: insertLe le x ys

/-- Sort key/value pairs by key (`json.dumps(..., sort_keys=True)`). -/
def sortPairs (l : List (String × Val)) : List (String × Val) :=
  l.foldr (insertLe (fun a b => compare a.1 b.1 ≠ Ordering.gt)) []

/-- Deterministic serialization of a key-sorted pair list; the model of
`json.dumps(d, sort_keys=True)`. -/
def serializePairs (l : List (String × Val)) : String :=
  String.intercalate ", " ((sortPairs l).map (fun p => "\"" ++ p.1 ++ "\": " ++ serializeVal p.2))

/-- `Deduplicator.generate_id`: project the record onto the key fields
that are present, serialize with sorted keys, digest.  The MD5 hex digest
is modelled by the serialized string itself (see module comment). -/
def generate_id (record : Rec) (key_fields : List String) : String :=
  serializePairs ((dedupFirst key_fields).filterMap
    (fun k => (rlookup record k).map (fun v => (k, v))))

/-- `Deduplicator.generate_fingerprint`: same digest over the whole
record. -/
def generate_fingerprint (record : Rec) : String :=
  serializePairs record

/-- `Deduplicator.deduplicate`: single pass keeping the first record per
identity, with the set of already-seen ids carried along. -/
def dedupGo (key_fields : List String) (seen : List String) : List Rec → List Rec
  | [] => []
  | r :: rs =>
    let i := generate_id r key_fields
    if i ∈ seen then dedupGo key_fields seen rs
    else r :: dedupGo key_fields (i :: seen) rs

/-- `Deduplicator.deduplicate(records, key_fields)`. -/
def deduplicate (records : List Rec) (key_fields : List String) : List Rec :=
  dedupGo key_fields [] records

/-- Modelled from the spec sentence for `deduplicate`: the subsequence of
the input keeping, for each distinct identity, the first record bearing
it — a record is kept exactly when no earlier record has its identity.
The prefix of records already passed is carried explicitly. -/
def firstPerIdAux (key_fields : List String) (pre : List Rec) : List Rec → List Rec
  | [] => []
  | r :: rs =>
    if pre.all (fun p => generate_id p key_fields ≠ generate_id r key_fields)
    then r :: firstPerIdAux key_fields (pre ++ [r]) rs
    else firstPerIdAux key_fields (pre ++ [r]) rs

/-- Spec-side deduplication: first record per distinct identity, in
input order. -/
def firstPerIdentity (records : List Rec) (key_fields : List String) : List Rec :=
  firstPerIdAux key_fields [] records

/-! ## Field Normalizer (`scraper_core/normalizer.py`) -/

/-- The last index at which `c` occurs in `l` (`str.rindex`); meaningful
only when `c ∈ l`, which every call site guards. -/
def rindexD (l : List Char) (c : Char) : Nat :=
  l.length - 1 - l.reverse.indexOf c

/-- `str.rindex` as the fallible operation it is in Python: raises
`ValueError` when the character is absent. -/
def rindexE (l : List Char) (c : Char) : Except String Nat :=
  if c ∈ l then Except.ok (rindexD l c) else Except.error "substring not found"

/-- Split a character list at every occurrence of `sep`
(`str.split(sep)` semantics: empty pieces kept). -/
def splitOnChar (sep : Char) : List Char → List (List Char)
  | [] => [[]]
  | c :: rest =>
    let r := splitOnChar sep rest
    if c = sep then [] :: r
    else match r with
      | [] => [[c]]
      | piece :: more => (c :: piece) :: more

/-- Digit characters to the natural number they denote. -/
def digitsToNat (l : List Char) : Nat :=
  l.foldl (fun acc c => 10 * acc + (c.toNat - '0'.toNat)) 0

/-- Python `float(s)` on the cleaned price strings: after separator
handling they contain only ASCII digits and dots, on which `float`
succeeds exactly when there is at most one dot and at least one digit.
The value is exact (`Rat`), standing in for the IEEE double. -/
def parseFloat (l : List Char) : Option Rat :=
  if l.all (fun c => c.isDigit ∨ c = '.') ∧ l.count '.' ≤ 1 ∧ l.any Char.isDigit then
    let intPart := l.takeWhile (fun c => c ≠ '.')
    let fracPart := (l.dropWhile (fun c => c ≠ '.')).drop 1
    some ((digitsToNat intPart : Rat) + (digitsToNat fracPart : Rat) / ((10 : Rat) ^ fracPart.length))
  else none

/-- Output of `Normalizer.normalize_price`. -/
structure PriceInfo where
  value : Rat
  currency : String
  original : String
deriving DecidableEq, Repr

/-- The configured currency symbol set of `normalize_price`. -/
def currencySymbols : List Char := ['£', '$', '€', '¥', '₹']

/-- `currency_map`: symbol to three-letter code. -/
def currencyCode (c : Char) : String :=
  if c = '$' then "USD"
  else if c = '€' then "EUR"
  else if c = '£' then "GBP"
  else if c = '¥' then "JPY"
  else if c = '₹' then "INR"
  else String.singleton c

/-- Separator disambiguation of `normalize_price` on the cleaned
character list (digits, dots, commas only). -/
def priceSeparators (cleaned : List Char) : List Char :=
  if ',' ∈ cleaned ∧ '.' ∈ cleaned then
    if rindexD cleaned ',' > rindexD cleaned '.' then
      (cleaned.filter (fun c => c ≠ '.')).map (fun c => if c = ',' then '.' else c)
    else cleaned.filter (fun c => c ≠ ',')
  else if ',' ∈ cleaned then
    let parts := splitOnChar ',' cleaned
    if parts.length = 2 ∧ ((parts.getD 1 []).length ≤ 2) then
      cleaned.map (fun c => if c = ',' then '.' else c)
    else cleaned.filter (fun c => c ≠ ',')
  else cleaned

/-- `Normalizer.normalize_price`. -/
def normalize_price (price_str : String) : Option PriceInfo :=
  if price_str = "" then none
  else
    let cleaned := price_str.toList.filter (fun c => c.isDigit ∨ c = '.' ∨ c = ',')
    match parseFloat (priceSeparators cleaned) with
    | none => none
    | some v =>
      let currency := match price_str.toList.find? (fun c => c ∈ currencySymbols) with
        | some c => currencyCode c
        | none => "USD"
      some { value := v, currency := currency, original := price_str }

/-- `Normalizer.normalize_price` with the two `str.rindex` calls kept as
fallible operations and the `float` call wrapped by the source's
`try`/`except`; `Except.error` marks an exception escaping the
function. -/
def normalize_priceE (price_str : String) : Except String (Option PriceInfo) :=
  if price_str = "" then Except.ok none
  else
    let cleaned := price_str.toList.filter (fun c => c.isDigit ∨ c = '.' ∨ c = ',')
    (if ',' ∈ cleaned ∧ '.' ∈ cleaned then
      (rindexE cleaned ',').bind (fun rc =>
        (rindexE cleaned '.').bind (fun rd =>
          if rc > rd then
            Except.ok
              ((cleaned.filter (fun c => c ≠ '.')).map (fun c => if c = ',' then '.' else c))
          else Except.ok (cleaned.filter (fun c => c ≠ ','))))
    else if ',' ∈ cleaned then
      let parts := splitOnChar ',' cleaned
      if parts.length = 2 ∧ ((parts.getD 1 []).length ≤ 2) then
        Except.ok (cleaned.map (fun c => if c = ',' then '.' else c))
      else Except.ok (cleaned.filter (fun c => c ≠ ','))
    else Except.ok cleaned).bind (fun cl =>
      match parseFloat cl with
      | none => Except.ok none
      | some v =>
        let currency := match price_str.toList.find? (fun c => c ∈ currencySymbols) with
          | some c => currencyCode c
          | none => "USD"
        Except.ok (some { value := v, currency := currency, original := price_str }))

/-- `Normalizer.normalize_phone`. -/
def normalize_phone (phone : String) : Option String :=
  if phone = "" then none
  else
    let digits := phone.toList.filter (fun c => c.isDigit ∨ c = '+')
    let hasPlus := digits.head? = some '+'
    let core := digits.dropWhile (fun c => c = '+')
    if core.length < 10 then none
    else
      let core2 := if core.length = 10 ∧ ¬hasPlus then '1' :: core else core
      if hasPlus then some (String.mk digits) else some (String.mk ('+' :: core2))

/-- `Normalizer.normalize_phone` with exceptions made explicit; its body
contains no fallible operation, so it is the `Except.ok` of the plain
function by construction. -/
def normalize_phoneE (phone : String) : Except String (Option String) :=
  Except.ok (normalize_phone phone)

/-- `(l.dropWhile p).length ≤ l.length`, for termination of the entity
scanners. -/
theorem length_dropWhile_le (p : Char → Bool) (l : List Char) :
    (l.dropWhile p).length ≤ l.length := by
  induction l with
  | nil => simp [List.dropWhile]
  | cons c rest ih =>
    simp only [List.dropWhile]
    cases p c <;> simp <;> omega

/-- Strip every `&#<digits>;` occurrence, scanning left to right as
`re.sub(r'&#\d+;', '', text)` does. -/
def stripNumEnt (l : List Char) : List Char :=
  match l with
  | [] => []
  | '&' :: '#' :: rest2 =>
    match hA : rest2.dropWhile Char.isDigit with
    | ';' :: tail =>
      if (rest2.takeWhile Char.isDigit).isEmpty then '&' :: stripNumEnt ('#' :: rest2)
      else stripNumEnt tail
    | _ => '&' :: stripNumEnt ('#' :: rest2)
  | c :: rest => c :: stripNumEnt rest
termination_by l.length
decreasing_by
  · simp
  · have h := length_dropWhile_le Char.isDigit rest2
    rw [hA] at h
    simp at h ⊢
    omega
  · simp
  · simp

/-- Word characters of the regex `\w` (ASCII model). -/
def isWordChar (c : Char) : Bool :=
  c.isAlphanum ∨ c = '_'

/-- Strip every `&<word>;` occurrence (`re.sub(r'&\w+;', '', text)`). -/
def stripNamedEnt (l : List Char) : List Char :=
  match l with
  | [] => []
  | '&' :: rest =>
    match hA : rest.dropWhile isWordChar with
    | ';' :: tail =>
      if (rest.takeWhile isWordChar).isEmpty then '&' :: stripNamedEnt rest
      else stripNamedEnt tail
    | _ => '&' :: stripNamedEnt rest
  | c :: rest => c :: stripNamedEnt rest
termination_by l.length
decreasing_by
  · simp
  · have h := length_dropWhile_le isWordChar rest
    rw [hA] at h
    simp at h ⊢
    omega
  · simp
  · simp

/-- An apostrophe as a string. -/
def aposStr : String := String.singleton (Char.ofNat 39)

/-- The fixed entity table of `clean_text`, in source order. -/
def entityTable : List (String × String) :=
  [("&nbsp;", " "), ("&amp;", "&"), ("&lt;", "<"), ("&gt;", ">"),
   ("&quot;", "\""), ("&apos;", aposStr), ("&#39;", aposStr),
   ("&hellip;", "..."), ("&mdash;", "—"), ("&ndash;", "–")]

/-- `Normalizer.clean_text`: entity table replacements, numeric then
named entity stripping, whitespace collapse, trim. -/
def clean_text (text : String) : String :=
  if text = "" then ""
  else
    let t1 := entityTable.foldl (fun t p => t.replace p.1 p.2) text
    let t2 := String.mk (stripNamedEnt (stripNumEnt t1.toList))
    (String.intercalate " " ((t2.split Char.isWhitespace).filter (fun w => w ≠ ""))).trim

/-- `Normalizer.clean_text` with exceptions explicit; the body has no
fallible operation, so it is `Except.ok` of the plain function. -/
def clean_textE (text : String) : Except String String :=
  Except.ok (clean_text text)

/-- Modelled from the claim's words for price parsing (C2): same strip
and later-separator rules, but a lone comma is the decimal separator
only when followed by exactly two digits. -/
def claimPriceSeparators (cleaned : List Char) : List Char :=
  if ',' ∈ cleaned ∧ '.' ∈ cleaned then
    if rindexD cleaned ',' > rindexD cleaned '.' then
      (cleaned.filter (fun c => c ≠ '.')).map (fun c => if c = ',' then '.' else c)
    else cleaned.filter (fun c => c ≠ ',')
  else if ',' ∈ cleaned then
    let parts := splitOnChar ',' cleaned
    if parts.length = 2 ∧ ((parts.getD 1 []).length = 2) then
      cleaned.map (fun c => if c = ',' then '.' else c)
    else cleaned.filter (fun c => c ≠ ',')
  else cleaned

/-- Modelled from the claim's words (C2): price parsing as the claim
states it. -/
def claimNormalizePrice (price_str : String) : Option PriceInfo :=
  let cleaned := price_str.toList.filter (fun c => c.isDigit ∨ c = '.' ∨ c = ',')
  match parseFloat (claimPriceSeparators cleaned) with
  | none => none
  | some v =>
    let currency := match price_str.toList.find? (fun c => c ∈ currencySymbols) with
      | some c => currencyCode c
      | none => "USD"
    some { value := v, currency := currency, original := price_str }

/-- The amended separator rule (C2): as the claim, except that a lone
comma with exactly one occurrence is the decimal separator when followed
by AT MOST two digits, and "occurring later" is read off the last
separator character of the cleaned string. -/
def amendedPriceSeparators (cleaned : List Char) : List Char :=
  if ',' ∈ cleaned ∧ '.' ∈ cleaned then
    if cleaned.reverse.find? (fun c => c = ',' ∨ c = '.') = some ',' then
      (cleaned.filter (fun c => c ≠ '.')).map (fun c => if c = ',' then '.' else c)
    else cleaned.filter (fun c => c ≠ ',')
  else if ',' ∈ cleaned then
    let parts := splitOnChar ',' cleaned
    if parts.length = 2 ∧ ((parts.getD 1 []).length ≤ 2) then
      cleaned.map (fun c => if c = ',' then '.' else c)
    else cleaned.filter (fun c => c ≠ ',')
  else cleaned

/-- The amended claim (C2) as a definition. -/
def amendedNormalizePrice (price_str : String) : Option PriceInfo :=
  let cleaned := price_str.toList.filter (fun c => c.isDigit ∨ c = '.' ∨ c = ',')
  match parseFloat (amendedPriceSeparators cleaned) with
  | none => none
  | some v =>
    let currency := match price_str.toList.find? (fun c => c ∈ currencySymbols) with
      | some c => currencyCode c
      | none => "USD"
    some { value := v, currency := currency, original := price_str }

/-- Modelled from the claim's words for phone normalization (C3): the
length gate counts digits, and the output is a plus sign followed by the
digit characters (with the country code when prefixed). -/
def claimNormalizePhone (phone : String) : Option String :=
  let stripped := phone.toList.filter (fun c => c.isDigit ∨ c = '+')
  let ds := stripped.filter Char.isDigit
  if ds.length < 10 then none
  else if ds.length = 10 ∧ ¬(stripped.head? = some '+') then
    some (String.mk ('+' :: '1' :: ds))
  else some (String.mk ('+' :: ds))

/-- The amended claim (C3) as a definition: the length gate counts the
characters remaining after removing the LEADING plus signs (so interior
plus signs count as digits would), and when a leading plus was present
the stripped string is returned unchanged. -/
def amendedNormalizePhone (phone : String) : Option String :=
  let stripped := phone.toList.filter (fun c => c.isDigit ∨ c = '+')
  let core := stripped.dropWhile (fun c => c = '+')
  if core.length < 10 then none
  else if stripped.head? = some '+' then some (String.mk stripped)
  else if core.length = 10 then some (String.mk ('+' :: '1' :: core))
  else some (String.mk ('+' :: core))

/-! ## Schemas (`scraper_core/schemas.py`) and Validator
(`scraper_core/validator.py`).

Pydantic v1 model construction is embedded per schema: required fields
missing or of the wrong shape raise, field validators run as in the
source, `.dict()` output lists the declared fields in declaration order.
`ProductSchema` sets `extra = 'allow'`, so unknown fields are kept; the
other schemas use the pydantic default, which silently drops unknown
fields.  Pydantic collects all field errors into one exception; only the
fact of failure is used here, so the embedding fails on the first error
and the message text is unimportant. -/

/-- Declared fields of `ProductSchema`. -/
def productFields : List String := ["title", "price", "image", "link", "description"]

/-- Declared fields of `ImageSchema`. -/
def imageFields : List String := ["url", "alt", "width", "height"]

/-- Declared fields of `ContactSchema`. -/
def contactFields : List String := ["emails", "phones", "socials"]

/-- Declared fields of `TextSchema`. -/
def textFields : List String := ["title", "meta", "headings", "paragraphs"]

/-- Declared fields of `AssetSchema`. -/
def assetFields : List String := ["filename", "url", "type", "size"]

/-- An `Optional[str]` pydantic field: absent or `None` stays `None`. -/
def optStrField (r : Rec) (k : String) : Except String Val :=
  match rlookup r k with
  | none => Except.ok Val.vNull
  | some Val.vNull => Except.ok Val.vNull
  | some (Val.vStr s) => Except.ok (Val.vStr s)
  | some _ => Except.error (k ++ ": str type expected")

/-- An `Optional[int]` pydantic field. -/
def optIntField (r : Rec) (k : String) : Except String Val :=
  match rlookup r k with
  | none => Except.ok Val.vNull
  | some Val.vNull => Except.ok Val.vNull
  | some (Val.vInt n) => Except.ok (Val.vInt n)
  | some _ => Except.error (k ++ ": int type expected")

/-- A required `str` pydantic field. -/
def reqStrField (r : Rec) (k : String) : Except String String :=
  match rlookup r k with
  | none => Except.error (k ++ ": field required")
  | some (Val.vStr s) => Except.ok s
  | some _ => Except.error (k ++ ": str type expected")

/-- A `List[str]` pydantic field with default `[]`. -/
def strListField (r : Rec) (k : String) : Except String (List String) :=
  match rlookup r k with
  | none => Except.ok []
  | some (Val.vStrList l) => Except.ok l
  | some _ => Except.error (k ++ ": value is not a valid list")

/-- `pat` begins the character list `l` (`str.startswith`). -/
def beginsWith : List Char → List Char → Bool
  | [], _ => true
  | _ :: _, [] => false
  | a :: pat, b :: l => a = b && beginsWith pat l

/-- Python `str.strip()` / pydantic `v.strip()`: whitespace removed from
both ends. -/
def trimChars (s : String) : String :=
  String.mk (((s.toList.dropWhile Char.isWhitespace).reverse.dropWhile
    Char.isWhitespace).reverse)

/-- The `validate_price` check of `ProductSchema`: fires on a non-empty
price string containing no digit. -/
def priceLacksDigit (pv : Val) : Bool :=
  match pv with
  | Val.vStr p => p ≠ "" ∧ ¬(p.toList.any Char.isDigit)
  | _ => false

/-- `ProductSchema(**product).dict()`: title required, non-empty after
trim, at most 500 characters, stored stripped; price, when non-empty,
must contain a digit; `extra = 'allow'` keeps unknown fields. -/
def productApply (r : Rec) : Except String Rec :=
  match reqStrField r "title" with
  | Except.error e => Except.error e
  | Except.ok t =>
    if trimChars t = "" then Except.error "Title is required"
    else if t.toList.length > 500 then Except.error "Title too long (max 500 characters)"
    else match optStrField r "price" with
      | Except.error e => Except.error e
      | Except.ok pv =>
        if priceLacksDigit pv then Except.error "Price must contain numbers"
        else match optStrField r "image", optStrField r "link", optStrField r "description" with
          | Except.ok iv, Except.ok lv, Except.ok dv =>
            Except.ok ([("title", Val.vStr (trimChars t)), ("price", pv), ("image", iv), ("link", lv),
              ("description", dv)] ++ r.filter (fun p => p.1 ∉ productFields))
          | Except.error e, _, _ => Except.error e
          | _, Except.error e, _ => Except.error e
          | _, _, Except.error e => Except.error e

/-- `ImageSchema(**image).dict()`: url required, must start with
`http`; unknown fields are dropped (pydantic default `extra`). -/
def imageApply (r : Rec) : Except String Rec :=
  match reqStrField r "url" with
  | Except.error e => Except.error e
  | Except.ok u =>
    if u = "" ∨ ¬(beginsWith ['h', 't', 't', 'p'] u.toList) then
      Except.error "URL must be a valid HTTP/HTTPS URL"
    else match optStrField r "alt", optIntField r "width", optIntField r "height" with
      | Except.ok av, Except.ok wv, Except.ok hv =>
        Except.ok [("url", Val.vStr u), ("alt", av), ("width", wv), ("height", hv)]
      | Except.error e, _, _ => Except.error e
      | _, Except.error e, _ => Except.error e
      | _, _, Except.error e => Except.error e

/-- The email shape `^[^\s@]+@[^\s@]+\.[^\s@]+$` of `ContactSchema`:
exactly one `@`, a non-empty whitespace-free local part, and a domain
with a dot that has characters on both sides. -/
def emailOk (s : String) : Bool :=
  match splitOnChar '@' s.toList with
  | [loc, dom] =>
    !loc.isEmpty && loc.all (fun c => !c.isWhitespace) &&
    dom.all (fun c => !c.isWhitespace) && ((dom.drop 1).dropLast).contains '.'
  | _ => false

/-- `ContactSchema(**contacts).dict()`: three string lists defaulting to
empty, each email checked against the shape; unknown fields dropped. -/
def contactApply (r : Rec) : Except String Rec :=
  match strListField r "emails" with
  | Except.error e => Except.error e
  | Except.ok es =>
    match es.find? (fun e => !emailOk e) with
    | some e => Except.error ("Invalid email format: " ++ e)
    | none =>
      match strListField r "phones", strListField r "socials" with
      | Except.ok ps, Except.ok ss =>
        Except.ok [("emails", Val.vStrList es), ("phones", Val.vStrList ps),
          ("socials", Val.vStrList ss)]
      | Except.error e, _ => Except.error e
      | _, Except.error e => Except.error e

/-- A `str` pydantic field with default `""`. -/
def strFieldD (r : Rec) (k : String) : Except String String :=
  match rlookup r k with
  | none => Except.ok ""
  | some (Val.vStr s) => Except.ok s
  | some _ => Except.error (k ++ ": str type expected")

/-- `TextSchema(**text).dict()`: headings and paragraphs truncated to
100 entries; unknown fields dropped. -/
def textApply (r : Rec) : Except String Rec :=
  match strFieldD r "title", strFieldD r "meta",
      strListField r "headings", strListField r "paragraphs" with
  | Except.ok tv, Except.ok mv, Except.ok hs, Except.ok ps =>
    Except.ok [("title", Val.vStr tv), ("meta", Val.vStr mv),
      ("headings", Val.vStrList (hs.take 100)), ("paragraphs", Val.vStrList (ps.take 100))]
  | Except.error e, _, _, _ => Except.error e
  | _, Except.error e, _, _ => Except.error e
  | _, _, Except.error e, _ => Except.error e
  | _, _, _, Except.error e => Except.error e

/-- `AssetSchema(**asset).dict()`: filename, url and type required, url
must start with `http`; unknown fields dropped. -/
def assetApply (r : Rec) : Except String Rec :=
  match reqStrField r "filename" with
  | Except.error e => Except.error e
  | Except.ok fn =>
    match reqStrField r "url" with
    | Except.error e => Except.error e
    | Except.ok u =>
      if u = "" ∨ ¬(beginsWith ['h', 't', 't', 'p'] u.toList) then
        Except.error "URL must be a valid HTTP/HTTPS URL"
      else match reqStrField r "type", optStrField r "size" with
        | Except.ok ty, Except.ok sv =>
          Except.ok [("filename", Val.vStr fn), ("url", Val.vStr u), ("type", Val.vStr ty),
            ("size", sv)]
        | Except.error e, _ => Except.error e
        | _, Except.error e => Except.error e

/-- One entry of `Validator.errors`. -/
structure VError where
  etype : String
  index : Option Nat
  msg : String
  data : Rec
deriving DecidableEq, Repr

/-- The per-record loop shared by `validate_products`, `validate_images`
and `validate_assets`: valid records collected, failures appended to the
error log with their index and original record. -/
def validateList (apply : Rec → Except String Rec) (etype : String) (items : List Rec) :
    List Rec × List VError :=
  items.enum.foldl
    (fun acc p =>
      match apply p.2 with
      | Except.ok v => (acc.1 ++ [v], acc.2)
      | Except.error e => (acc.1, acc.2 ++ [⟨etype, some p.1, e, p.2⟩]))
    ([], [])

/-- The scrape result handed to `Validator.validate_result`; `none`
models an absent key. -/
structure SResult where
  products : Option (List Rec) := none
  images : Option (List Rec) := none
  contacts : Option Rec := none
  text : Option Rec := none
  assets : Option (List Rec) := none
  crawl : Option (List String) := none
deriving DecidableEq, Repr

/-- The `validated` dictionary built by `validate_result`; a key is
present exactly when the source assigns it. -/
structure Validated where
  products : Option (List Rec) := none
  images : Option (List Rec) := none
  contacts : Option Rec := none
  text : Option Rec := none
  assets : Option (List Rec) := none
  crawl : Option (List String) := none
deriving DecidableEq, Repr

/-- The category-processing body of `validate_result`: the validated
dictionary, the errors appended during this call (in order), and
`total_records` as the source accumulates it (contacts/text count one
only when they validate). -/
def validateRun (result : SResult) : Validated × List VError × Nat :=
  let (vp, ep, tp) := match result.products with
    | some ps =>
      if ps ≠ [] then
        let (v, e) := validateList productApply "product" ps
        (some v, e, ps.length)
      else (none, [], 0)
    | none => (none, [], 0)
  let (vi, ei, ti) := match result.images with
    | some is =>
      if is ≠ [] then
        let (v, e) := validateList imageApply "image" is
        (some v, e, is.length)
      else (none, [], 0)
    | none => (none, [], 0)
  let (vc, ec, tc) := match result.contacts with
    | some c =>
      if c ≠ [] then
        match contactApply c with
        | Except.ok v => (some v, [], 1)
        | Except.error e => (none, [VError.mk "contact" none e c], 0)
      else (none, [], 0)
    | none => (none, [], 0)
  let (vt, et, tt) := match result.text with
    | some t =>
      if t ≠ [] then
        match textApply t with
        | Except.ok v => (some v, [], 1)
        | Except.error e => (none, [VError.mk "text" none e t], 0)
      else (none, [], 0)
    | none => (none, [], 0)
  let (va, ea, ta) := match result.assets with
    | some as_ =>
      if as_ ≠ [] then
        let (v, e) := validateList assetApply "asset" as_
        (some v, e, as_.length)
      else (none, [], 0)
    | none => (none, [], 0)
  ({ products := vp, images := vi, contacts := vc, text := vt, assets := va,
     crawl := result.crawl },
   ep ++ ei ++ ec ++ et ++ ea,
   tp + ti + tc + tt + ta)

/-- `Validator.validate_result`, with the validator's `self.errors`
state passed in and returned.  The source captures
`invalid_records = len(self.errors)` BEFORE any category is processed,
and raises `ValueError` after processing when
`invalid_records / total_records` exceeds the threshold; the raise is
the `Except.error` outcome, which carries no validated output. -/
def validate_result (error_threshold : Rat) (errors0 : List VError) (result : SResult) :
    Except String Validated × List VError :=
  let invalid0 := errors0.length
  let (v, newErrs, total) := validateRun result
  let allErrs := errors0 ++ newErrs
  if 0 < total ∧ (invalid0 : Rat) / (total : Rat) > error_threshold then
    (Except.error "Error threshold exceeded", allErrs)
  else
    (Except.ok v, allErrs)

/-! ## Change Detector (`scraper_core/changes.py`).

Python `set`s of ids are modelled as duplicate-free lists in
first-occurrence order; the claims proved below depend only on
membership.  The `current_ids` dict comprehension keeps the insertion
position of a key and lets a later record with the same id overwrite the
value. -/

/-- Lookup in a string-keyed association list (`dict.get`). -/
def alookup {α : Type} : List (String × α) → String → Option α
  | [], _ => none
  | (k', v) :: rest, k => if k' = k then some v else alookup rest k

/-- Python dict insertion: overwrite in place or append. -/
def insertPair {α : Type} (l : List (String × α)) (k : String) (v : α) : List (String × α) :=
  if (alookup l k).isSome then l.map (fun p => if p.1 = k then (k, v) else p)
  else l ++ [(k, v)]

/-- `{Deduplicator.generate_id(r, fields): r for r in current_records}`. -/
def idDict (rs : List Rec) (fields : List String) : List (String × Rec) :=
  rs.foldl (fun acc r => insertPair acc (generate_id r fields) r) []

/-- The previous-id set of `detect_changes`: the persisted id list when
non-empty, else ids recomputed from the previous records. -/
def prevIdsUsed (persisted : List String) (prevRecs : List Rec) (fields : List String) :
    List String :=
  if dedupFirst persisted = [] then dedupFirst (prevRecs.map (fun r => generate_id r fields))
  else dedupFirst persisted

/-- One `updated` entry: `{id, previous, current}`. -/
structure UpdatedEntry where
  id : String
  previous : Rec
  current : Rec
deriving DecidableEq, Repr

/-- The change set returned by `detect_changes`, each part keyed by
category. -/
structure Changes where
  new : List (String × List Rec)
  updated : List (String × List UpdatedEntry)
  removed : List (String × List String)
deriving DecidableEq, Repr

/-- The per-category body of the `detect_changes` loop: new records,
updated entries (previous record found by a linear scan on identity,
fingerprints compared), and removed bare identities. -/
def diffCategory (cur : List Rec) (prevRecs : List Rec) (persisted : List String)
    (fields : List String) : List Rec × List UpdatedEntry × List String :=
  let curPairs := idDict cur fields
  let prevIds := prevIdsUsed persisted prevRecs fields
  let curIds := curPairs.map (fun p => p.1)
  let newRecs := (curPairs.filter (fun p => p.1 ∉ prevIds)).map (fun p => p.2)
  let removed := prevIds.filter (fun i => i ∉ curIds)
  let updated := (curPairs.filter (fun p => p.1 ∈ prevIds)).filterMap (fun p =>
    match prevRecs.find? (fun r => generate_id r fields = p.1) with
    | none => none
    | some prevRec =>
      if generate_fingerprint p.2 ≠ generate_fingerprint prevRec then
        some ⟨p.1, prevRec, p.2⟩
      else none)
  (newRecs, updated, removed)

/-- A stored snapshot: the captured result and the persisted per-category
identity lists. -/
structure Snapshot where
  data : List (String × List Rec)
  recordIds : List (String × List String)
deriving DecidableEq, Repr

/-- The fallback key-field map of `detect_changes`. -/
def defaultKeyFields : List (String × List String) :=
  [("products", ["title", "url"]), ("images", ["url"]), ("assets", ["url"])]

/-- The `for data_type in ["products", "images", "assets"]` loop:
categories absent from the current result or from the key-field map are
skipped and get no entry in any of the three parts. -/
def detectLoop (current : List (String × List Rec)) (prevData : List (String × List Rec))
    (prevRecIds : List (String × List String)) (kf : List (String × List String)) :
    List String → Changes
  | [] => ⟨[], [], []⟩
  | dt :: rest =>
    let c := detectLoop current prevData prevRecIds kf rest
    match alookup current dt, alookup kf dt with
    | some curRecs, some fields =>
      let (n, u, rm) := diffCategory curRecs ((alookup prevData dt).getD [])
        ((alookup prevRecIds dt).getD []) fields
      ⟨(dt, n) :: c.new, (dt, u) :: c.updated, (dt, rm) :: c.removed⟩
    | _, _ => c

/-- `if not key_fields:` of `detect_changes`: the default map is
substituted for `None` or an empty map. -/
def effectiveKeyFields (key_fields : Option (List (String × List String))) :
    List (String × List String) :=
  match key_fields with
  | none => defaultKeyFields
  | some k => if k = [] then defaultKeyFields else k

/-- `ChangeDetector.detect_changes`: without a previous snapshot the
whole current result is new; otherwise the three per-category parts are
computed over the fixed category list. -/
def detectChanges (current : List (String × List Rec)) (previous : Option Snapshot)
    (key_fields : Option (List (String × List String))) : Changes :=
  match previous with
  | none => ⟨current, [], []⟩
  | some prev =>
    detectLoop current prev.data prev.recordIds (effectiveKeyFields key_fields)
      ["products", "images", "assets"]

/-! ## Lemmas about record lookup and identities -/

theorem keysOf_cons (p : String × Val) (r : Rec) : keysOf (p :: r) = p.1 :: keysOf r := rfl

theorem rlookup_eq_none_iff (r : Rec) (k : String) : rlookup r k = none ↔ k ∉ keysOf r := by
  induction r with
  | nil => simp [rlookup, keysOf]
  | cons p rest ih =>
    obtain ⟨k', v⟩ := p
    by_cases h : k' = k
    · subst h; simp [rlookup, keysOf]
    · simp only [rlookup, if_neg h, ih, keysOf_cons, List.mem_cons, not_or]
      constructor
      · intro hn; exact ⟨fun he => h he.symm, hn⟩
      · exact fun hn => hn.2

theorem rlookup_mem {r : Rec} {k : String} {v : Val} (h : rlookup r k = some v) : (k, v) ∈ r := by
  induction r with
  | nil => simp [rlookup] at h
  | cons p rest ih =>
    obtain ⟨k', v'⟩ := p
    by_cases hk : k' = k
    · subst hk; simp [rlookup] at h; simp [h]
    · simp [rlookup, hk] at h; simp [ih h]

theorem mem_rlookup {r : Rec} (hnd : (keysOf r).Nodup) {k : String} {v : Val}
    (h : (k, v) ∈ r) : rlookup r k = some v := by
  induction r with
  | nil => simp at h
  | cons p rest ih =>
    obtain ⟨k', v'⟩ := p
    simp only [keysOf_cons, List.nodup_cons] at hnd
    rcases List.mem_cons.mp h with heq | hmem
    · rw [Prod.mk.injEq] at heq
      obtain ⟨h1, h2⟩ := heq
      subst h1; subst h2
      simp [rlookup]
    · have hk : k' ≠ k := by
        intro he
        subst he
        exact hnd.1 (List.mem_map.mpr ⟨(k', v), hmem, rfl⟩)
      simp only [rlookup, if_neg hk]
      exact ih hnd.2 hmem

theorem rlookup_perm {r r' : Rec} (hperm : r'.Perm r) (hnd : (keysOf r).Nodup)
    (k : String) : rlookup r' k = rlookup r k := by
  cases hcase : rlookup r' k with
  | none =>
    have h1 : k ∉ keysOf r' := (rlookup_eq_none_iff r' k).mp hcase
    have h2 : k ∉ keysOf r := fun hm =>
      h1 (((hperm.map (fun p : String × Val => p.1)).mem_iff).mpr hm)
    exact ((rlookup_eq_none_iff r k).mpr h2).symm
  | some v =>
    exact (mem_rlookup hnd (hperm.mem_iff.mp (rlookup_mem hcase))).symm

theorem mem_dedupFirstAux {k : String} :
    ∀ {l seen : List String}, k ∈ dedupFirstAux seen l → k ∈ l := by
  intro l
  induction l with
  | nil => intro seen h; simp [dedupFirstAux] at h
  | cons a ks ih =>
    intro seen h
    rw [dedupFirstAux] at h
    by_cases hm : a ∈ seen
    · rw [if_pos hm] at h
      exact List.mem_cons.mpr (Or.inr (ih h))
    · rw [if_neg hm] at h
      rcases List.mem_cons.mp h with h | h
      · simp [h]
      · exact List.mem_cons.mpr (Or.inr (ih h))

theorem mem_dedupFirst {k : String} {l : List String} (h : k ∈ dedupFirst l) : k ∈ l :=
  mem_dedupFirstAux h

theorem generate_id_congr {a b : Rec} {K : List String}
    (h : ∀ k ∈ K, rlookup a k = rlookup b k) : generate_id a K = generate_id b K := by
  unfold generate_id
  congr 1
  apply List.filterMap_congr
  intro k hk
  rw [h k (mem_dedupFirst hk)]

/-- C4: the identity hash is invariant under permutation of a record's
fields, under addition of a field whose name is not a key field, and more
generally any two records agreeing on every key field (same presence and
value) share the identity. -/
theorem generate_id_invariant (r r' r₂ : Rec) (K : List String) (f : String) (v : Val)
    (hnd : (keysOf r).Nodup) (hperm : r'.Perm r) (hf : f ∉ K)
    (h₂ : ∀ k ∈ K, rlookup r₂ k = rlookup r k) :
    generate_id r' K = generate_id r K ∧
    generate_id ((f, v) :: r) K = generate_id r K ∧
    generate_id r₂ K = generate_id r K := by
  refine ⟨generate_id_congr (fun k _ => rlookup_perm hperm hnd k), generate_id_congr ?_,
    generate_id_congr h₂⟩
  intro k hk
  have hfk : f ≠ k := fun he => hf (he ▸ hk)
  simp [rlookup, if_neg hfk]

/-- Witness for C4 at concrete records: a two-field product record, its
field-order permutation, and a record with an extra non-key field. -/
theorem generate_id_invariant_witness :
    generate_id [("url", Val.vStr "u"), ("title", Val.vStr "A")] ["title", "url"] =
      generate_id [("title", Val.vStr "A"), ("url", Val.vStr "u")] ["title", "url"] ∧
    generate_id [("desc", Val.vStr "d"), ("title", Val.vStr "A"), ("url", Val.vStr "u")]
        ["title", "url"] =
      generate_id [("title", Val.vStr "A"), ("url", Val.vStr "u")] ["title", "url"] ∧
    generate_id [("url", Val.vStr "u"), ("title", Val.vStr "A"), ("extra", Val.vInt 1)]
        ["title", "url"] =
      generate_id [("title", Val.vStr "A"), ("url", Val.vStr "u")] ["title", "url"] :=
  generate_id_invariant [("title", Val.vStr "A"), ("url", Val.vStr "u")]
    [("url", Val.vStr "u"), ("title", Val.vStr "A")]
    [("url", Val.vStr "u"), ("title", Val.vStr "A"), ("extra", Val.vInt 1)]
    ["title", "url"] "desc" (Val.vStr "d")
    (by decide) (by decide) (by decide) (by decide)

theorem dedupGo_eq_firstPerIdAux (K : List String) (l : List Rec) :
    ∀ (seen : List String) (pre : List Rec),
      (∀ s, s ∈ seen ↔ ∃ p ∈ pre, generate_id p K = s) →
      dedupGo K seen l = firstPerIdAux K pre l := by
  induction l with
  | nil => intro seen pre _; rfl
  | cons r rs ih =>
    intro seen pre hinv
    have hiff : generate_id r K ∈ seen ↔
        ¬(pre.all (fun p => generate_id p K ≠ generate_id r K) = true) := by
      rw [hinv]
      simp [List.all_eq_true]
    simp only [dedupGo, firstPerIdAux]
    by_cases hmem : generate_id r K ∈ seen
    · rw [if_pos hmem, if_neg (hiff.mp hmem)]
      apply ih
      intro s
      rw [hinv]
      constructor
      · rintro ⟨p, hp, he⟩; exact ⟨p, by simp [hp], he⟩
      · rintro ⟨p, hp, he⟩
        rcases List.mem_append.mp hp with h | h
        · exact ⟨p, h, he⟩
        · simp at h
          subst h
          subst he
          exact (hinv _).mp hmem
    · have hall : pre.all (fun p => generate_id p K ≠ generate_id r K) = true :=
        of_not_not (fun hna => hmem (hiff.mpr hna))
      rw [if_neg hmem, if_pos hall]
      congr 1
      apply ih
      intro s
      constructor
      · intro hs
        rcases List.mem_cons.mp hs with h | h
        · exact ⟨r, by simp, h.symm⟩
        · obtain ⟨p, hp, he⟩ := (hinv s).mp h
          exact ⟨p, by simp [hp], he⟩
      · rintro ⟨p, hp, he⟩
        rcases List.mem_append.mp hp with h | h
        · exact List.mem_cons.mpr (Or.inr ((hinv s).mpr ⟨p, h, he⟩))
        · simp at h
          subst h
          subst he
          exact List.mem_cons.mpr (Or.inl rfl)

theorem dedupGo_sublist (K : List String) (l : List Rec) (seen : List String) :
    (dedupGo K seen l).Sublist l := by
  induction l generalizing seen with
  | nil => simp [dedupGo]
  | cons r rs ih =>
    simp only [dedupGo]
    by_cases hmem : generate_id r K ∈ seen
    · rw [if_pos hmem]
      exact (ih seen).cons r
    · rw [if_neg hmem]
      exact (ih _).cons₂ r

/-- C5: `deduplicate` returns the order-preserving subsequence keeping
the first record per distinct identity; in particular, of two records
agreeing on the key fields `title` and `url` but differing in
description, only the first is kept. -/
theorem deduplicate_keeps_first_per_identity :
    (∀ (records : List Rec) (key_fields : List String),
      deduplicate records key_fields = firstPerIdentity records key_fields ∧
      (deduplicate records key_fields).Sublist records) ∧
    deduplicate
      [[("title", Val.vStr "T"), ("url", Val.vStr "u"), ("description", Val.vStr "d1")],
       [("title", Val.vStr "T"), ("url", Val.vStr "u"), ("description", Val.vStr "d2")]]
      ["title", "url"] =
      [[("title", Val.vStr "T"), ("url", Val.vStr "u"), ("description", Val.vStr "d1")]] := by
  refine ⟨fun records K => ⟨dedupGo_eq_firstPerIdAux K records [] [] (by simp),
    dedupGo_sublist K records []⟩, ?_⟩
  rfl

/-- C6: with no previous snapshot, `detect_changes` returns the whole
current result as new, with empty updated and removed parts, raising no
error. -/
theorem detect_changes_no_previous :
    ∀ (current : List (String × List Rec)) (kf : Option (List (String × List String))),
      detectChanges current none kf = { new := current, updated := [], removed := [] } :=
  fun _ _ => rfl

/-! ## Price and phone normalization: claims C2, C3, C9 -/

theorem indexOf_lt_iff_find_comma {L : List Char} (hc : ',' ∈ L) (hd : '.' ∈ L) :
    L.indexOf ',' < L.indexOf '.' ↔
      L.find? (fun c => c = ',' ∨ c = '.') = some ',' := by
  induction L with
  | nil => simp at hc
  | cons c rest ih =>
    by_cases h1 : c = ','
    · subst h1
      have hd' : '.' ∈ rest := by
        rcases List.mem_cons.mp hd with h | h
        · exact absurd h.symm (by decide)
        · exact h
      constructor
      · intro _
        rw [List.find?_cons_of_pos _ (by decide)]
      · intro _
        rw [List.indexOf_cons_self]
        rw [List.indexOf_cons_ne _ (by decide : (',' : Char) ≠ '.')]
        omega
    · by_cases h2 : c = '.'
      · subst h2
        constructor
        · intro hlt
          rw [List.indexOf_cons_self] at hlt
          omega
        · intro hf
          rw [List.find?_cons_of_pos _ (by decide)] at hf
          simp at hf
      · have hc' : ',' ∈ rest := by
          rcases List.mem_cons.mp hc with h | h
          · exact absurd h.symm h1
          · exact h
        have hd' : '.' ∈ rest := by
          rcases List.mem_cons.mp hd with h | h
          · exact absurd h.symm h2
          · exact h
        rw [List.indexOf_cons_ne _ h1, List.indexOf_cons_ne _ h2,
          List.find?_cons_of_neg _ (by simp [h1, h2])]
        rw [← ih hc' hd']
        omega

theorem rindex_gt_iff_last_sep_comma {l : List Char} (hc : ',' ∈ l) (hd : '.' ∈ l) :
    rindexD l ',' > rindexD l '.' ↔
      l.reverse.find? (fun c => c = ',' ∨ c = '.') = some ',' := by
  have hc' : ',' ∈ l.reverse := List.mem_reverse.mpr hc
  have hd' : '.' ∈ l.reverse := List.mem_reverse.mpr hd
  have ha : l.reverse.indexOf ',' < l.length := by
    rw [← List.length_reverse]
    exact List.indexOf_lt_length.mpr hc'
  have hb : l.reverse.indexOf '.' < l.length := by
    rw [← List.length_reverse]
    exact List.indexOf_lt_length.mpr hd'
  have hne : l.reverse.indexOf ',' ≠ l.reverse.indexOf '.' := by
    intro he
    exact absurd ((List.indexOf_inj hc' hd').mp he) (by decide)
  rw [← indexOf_lt_iff_find_comma hc' hd']
  unfold rindexD
  omega

theorem priceSeparators_eq_amended (cleaned : List Char) :
    priceSeparators cleaned = amendedPriceSeparators cleaned := by
  unfold priceSeparators amendedPriceSeparators
  by_cases h : ',' ∈ cleaned ∧ '.' ∈ cleaned
  · rw [if_pos h, if_pos h]
    obtain ⟨hc, hd⟩ := h
    by_cases hlt : rindexD cleaned ',' > rindexD cleaned '.'
    · rw [if_pos hlt, if_pos ((rindex_gt_iff_last_sep_comma hc hd).mp hlt)]
    · rw [if_neg hlt, if_neg (fun hf => hlt ((rindex_gt_iff_last_sep_comma hc hd).mpr hf))]
  · rw [if_neg h, if_neg h]

theorem normalize_price_eq_amended (s : String) :
    normalize_price s = amendedNormalizePrice s := by
  by_cases h : s = ""
  · subst h; rfl
  · unfold normalize_price amendedNormalizePrice
    rw [if_neg h]
    simp only [priceSeparators_eq_amended]

/-- C2 counterexample: on `"15,5"` the claim's exactly-two-digit rule
strips the comma (yielding 155), while the code's at-most-two-digit rule
treats it as a decimal separator (yielding 15.5). -/
theorem normalize_price_exact_two_rule_cex :
    claimNormalizePrice "15,5" = some ⟨(155 : Rat), "USD", "15,5"⟩ ∧
    normalize_price "15,5" = some ⟨(31 : Rat) / 2, "USD", "15,5"⟩ ∧
    claimNormalizePrice "15,5" ≠ normalize_price "15,5" := by
  have h1 : claimNormalizePrice "15,5" =
      some ⟨((155 : Nat) : Rat) + ((0 : Nat) : Rat) / ((10 : Rat) ^ (0 : Nat)), "USD", "15,5"⟩ := rfl
  have h2 : normalize_price "15,5" =
      some ⟨((15 : Nat) : Rat) + ((5 : Nat) : Rat) / ((10 : Rat) ^ (1 : Nat)), "USD", "15,5"⟩ := rfl
  refine ⟨by rw [h1]; norm_num, by rw [h2]; norm_num, ?_⟩
  rw [h1, h2]
  intro hco
  simp only [Option.some.injEq, PriceInfo.mk.injEq] at hco
  have hv := hco.1
  norm_num at hv

/-- C2 amended: price parsing as the claim states it except that a lone
comma (occurring once) is the decimal separator when followed by AT MOST
two digits; the four cited examples hold. -/
theorem normalize_price_amended :
    (∀ s, normalize_price s = amendedNormalizePrice s) ∧
    normalize_price "$19.99" = some ⟨(1999 : Rat) / 100, "USD", "$19.99"⟩ ∧
    normalize_price "€15,50" = some ⟨(31 : Rat) / 2, "EUR", "€15,50"⟩ ∧
    normalize_price "£1.234,56" = some ⟨(30864 : Rat) / 25, "GBP", "£1.234,56"⟩ ∧
    normalize_price "TBD" = none := by
  refine ⟨normalize_price_eq_amended, ?_, ?_, ?_, rfl⟩
  · have h : normalize_price "$19.99" =
        some ⟨((19 : Nat) : Rat) + ((99 : Nat) : Rat) / ((10 : Rat) ^ (2 : Nat)), "USD", "$19.99"⟩ := rfl
    rw [h]
    norm_num
  · have h : normalize_price "€15,50" =
        some ⟨((15 : Nat) : Rat) + ((50 : Nat) : Rat) / ((10 : Rat) ^ (2 : Nat)), "EUR", "€15,50"⟩ := rfl
    rw [h]
    norm_num
  · have h : normalize_price "£1.234,56" =
        some ⟨((1234 : Nat) : Rat) + ((56 : Nat) : Rat) / ((10 : Rat) ^ (2 : Nat)), "GBP", "£1.234,56"⟩ := rfl
    rw [h]
    norm_num

theorem normalize_phone_eq_amended (s : String) :
    normalize_phone s = amendedNormalizePhone s := by
  by_cases h : s = ""
  · subst h; rfl
  · unfold normalize_phone amendedNormalizePhone
    rw [if_neg h]
    simp only []
    split_ifs <;> simp_all

/-- C3 counterexample: `"12345678+9"` keeps an interior plus after the
strip, so only 9 digits remain — the claim demands absence — yet the
code's length gate counts the plus character and accepts, even prefixing
the country code. -/
theorem normalize_phone_digit_count_cex :
    claimNormalizePhone "12345678+9" = none ∧
    normalize_phone "12345678+9" = some "+112345678+9" ∧
    claimNormalizePhone "12345678+9" ≠ normalize_phone "12345678+9" :=
  ⟨rfl, rfl, by decide⟩

/-- C3 amended: the length gate counts the characters left after
stripping (leading pluses removed, interior pluses still counted), and
with a leading plus the stripped string is returned unchanged; the three
cited examples hold. -/
theorem normalize_phone_amended :
    (∀ s, normalize_phone s = amendedNormalizePhone s) ∧
    normalize_phone "555-123-4567" = some "+15551234567" ∧
    normalize_phone "+44 20 7946 0958" = some "+442079460958" ∧
    normalize_phone "12345" = none :=
  ⟨normalize_phone_eq_amended, rfl, rfl, rfl⟩

theorem bind_ok_eq {α β : Type} (a : α) (f : α → Except String β) :
    (Except.ok a : Except String α).bind f = f a := rfl

theorem normalize_priceE_ok (s : String) :
    normalize_priceE s = Except.ok (normalize_price s) := by
  by_cases h : s = ""
  · subst h; rfl
  · unfold normalize_priceE normalize_price priceSeparators
    rw [if_neg h, if_neg h]
    simp only []
    by_cases hcd : ',' ∈ s.toList.filter (fun c => c.isDigit ∨ c = '.' ∨ c = ',') ∧
        '.' ∈ s.toList.filter (fun c => c.isDigit ∨ c = '.' ∨ c = ',')
    · rw [if_pos hcd, if_pos hcd]
      unfold rindexE
      rw [if_pos hcd.1, if_pos hcd.2]
      simp only [bind_ok_eq]
      split_ifs
      · rw [bind_ok_eq]
        generalize parseFloat _ = q
        cases q <;> rfl
      · rw [bind_ok_eq]
        generalize parseFloat _ = q
        cases q <;> rfl
    · rw [if_neg hcd, if_neg hcd]
      by_cases hco : ',' ∈ s.toList.filter (fun c => c.isDigit ∨ c = '.' ∨ c = ',')
      · rw [if_pos hco, if_pos hco]
        split_ifs
        · rw [bind_ok_eq]
          generalize parseFloat _ = q
          cases q <;> rfl
        · rw [bind_ok_eq]
          generalize parseFloat _ = q
          cases q <;> rfl
      · rw [if_neg hco, if_neg hco]
        rw [bind_ok_eq]
        generalize parseFloat _ = q
        cases q <;> rfl

/-- C9: normalization is total — with every fallible Python primitive
modelled explicitly (`str.rindex` raising on absence, `float` wrapped by
the source's `try`/`except`), no input string makes `normalize_price`,
`normalize_phone` or `clean_text` raise; each returns its plain value,
degrading to `none`/`""` on unparsable input. -/
theorem normalizer_total (s : String) :
    normalize_priceE s = Except.ok (normalize_price s) ∧
    normalize_phoneE s = Except.ok (normalize_phone s) ∧
    clean_textE s = Except.ok (clean_text s) :=
  ⟨normalize_priceE_ok s, rfl, rfl⟩

/-! ## Schema extra-field handling: claim C8 -/

theorem rlookup_filter_notin (r : Rec) (fields : List String) (k : String) (hk : k ∉ fields) :
    rlookup (r.filter (fun p => p.1 ∉ fields)) k = rlookup r k := by
  induction r with
  | nil => rfl
  | cons p rest ih =>
    obtain ⟨k', v⟩ := p
    by_cases hq : k' ∉ fields
    · rw [List.filter_cons_of_pos (by simpa using hq)]
      simp only [rlookup]
      by_cases he : k' = k
      · rw [if_pos he, if_pos he]
      · rw [if_neg he, if_neg he]
        exact ih
    · rw [List.filter_cons_of_neg (by simpa using hq)]
      have hin : k' ∈ fields := not_not.mp hq
      have hne : k' ≠ k := fun he => hk (he ▸ hin)
      simp only [rlookup, if_neg hne]
      exact ih

theorem productApply_keeps_extras {r out : Rec} {k : String}
    (h : productApply r = Except.ok out) (hk : k ∉ productFields) :
    rlookup out k = rlookup r k := by
  have hks : k ≠ "title" ∧ k ≠ "price" ∧ k ≠ "image" ∧ k ≠ "link" ∧ k ≠ "description" := by
    simp [productFields] at hk
    tauto
  unfold productApply at h
  repeat' split at h
  all_goals first
  | (rw [Except.ok.injEq] at h
     subst h
     simp only [List.cons_append, List.nil_append, rlookup, if_neg (Ne.symm hks.1),
       if_neg (Ne.symm hks.2.1), if_neg (Ne.symm hks.2.2.1), if_neg (Ne.symm hks.2.2.2.1),
       if_neg (Ne.symm hks.2.2.2.2)]
     exact rlookup_filter_notin r productFields k hk)
  | simp at h

theorem imageApply_drops_extras {r out : Rec} {k : String}
    (h : imageApply r = Except.ok out) (hk : k ∉ imageFields) :
    rlookup out k = none := by
  have hks : k ≠ "url" ∧ k ≠ "alt" ∧ k ≠ "width" ∧ k ≠ "height" := by
    simp [imageFields] at hk
    tauto
  unfold imageApply at h
  repeat' split at h
  all_goals first
  | (rw [Except.ok.injEq] at h
     subst h
     simp only [rlookup, if_neg (Ne.symm hks.1), if_neg (Ne.symm hks.2.1),
       if_neg (Ne.symm hks.2.2.1), if_neg (Ne.symm hks.2.2.2)])
  | simp at h

theorem contactApply_drops_extras {r out : Rec} {k : String}
    (h : contactApply r = Except.ok out) (hk : k ∉ contactFields) :
    rlookup out k = none := by
  have hks : k ≠ "emails" ∧ k ≠ "phones" ∧ k ≠ "socials" := by
    simp [contactFields] at hk
    tauto
  unfold contactApply at h
  repeat' split at h
  all_goals first
  | (rw [Except.ok.injEq] at h
     subst h
     simp only [rlookup, if_neg (Ne.symm hks.1), if_neg (Ne.symm hks.2.1),
       if_neg (Ne.symm hks.2.2)])
  | simp at h

theorem textApply_drops_extras {r out : Rec} {k : String}
    (h : textApply r = Except.ok out) (hk : k ∉ textFields) :
    rlookup out k = none := by
  have hks : k ≠ "title" ∧ k ≠ "meta" ∧ k ≠ "headings" ∧ k ≠ "paragraphs" := by
    simp [textFields] at hk
    tauto
  unfold textApply at h
  repeat' split at h
  all_goals first
  | (rw [Except.ok.injEq] at h
     subst h
     simp only [rlookup, if_neg (Ne.symm hks.1), if_neg (Ne.symm hks.2.1),
       if_neg (Ne.symm hks.2.2.1), if_neg (Ne.symm hks.2.2.2)])
  | simp at h

theorem assetApply_drops_extras {r out : Rec} {k : String}
    (h : assetApply r = Except.ok out) (hk : k ∉ assetFields) :
    rlookup out k = none := by
  have hks : k ≠ "filename" ∧ k ≠ "url" ∧ k ≠ "type" ∧ k ≠ "size" := by
    simp [assetFields] at hk
    tauto
  unfold assetApply at h
  repeat' split at h
  all_goals first
  | (rw [Except.ok.injEq] at h
     subst h
     simp only [rlookup, if_neg (Ne.symm hks.1), if_neg (Ne.symm hks.2.1),
       if_neg (Ne.symm hks.2.2.1), if_neg (Ne.symm hks.2.2.2)])
  | simp at h

/-- C8 counterexample: an image record with an extra field passes
`ImageSchema` validation, but the extra field is silently dropped from
the validated output (pydantic default `extra`, no `allow` on
`ImageSchema`), contradicting the claim that every category preserves
unknown fields. -/
theorem image_schema_drops_extra_cex :
    validateList imageApply "image"
        [[("url", Val.vStr "http://a.com/i.png"), ("foo", Val.vStr "bar")]] =
      ([[("url", Val.vStr "http://a.com/i.png"), ("alt", Val.vNull), ("width", Val.vNull),
        ("height", Val.vNull)]], []) ∧
    rlookup [("url", Val.vStr "http://a.com/i.png"), ("foo", Val.vStr "bar")] "foo" =
      some (Val.vStr "bar") ∧
    rlookup [("url", Val.vStr "http://a.com/i.png"), ("alt", Val.vNull), ("width", Val.vNull),
      ("height", Val.vNull)] "foo" = none :=
  ⟨rfl, rfl, rfl⟩

/-- C8 amended: only `ProductSchema` declares `extra = 'allow'`, so
extra fields are preserved unchanged in validated product records; the
image, contact, text and asset schemas silently drop unknown fields from
the validated output — without rejecting the record for having them. -/
theorem schema_extra_field_handling :
    (∀ (r out : Rec) (k : String), productApply r = Except.ok out → k ∉ productFields →
      rlookup out k = rlookup r k) ∧
    (∀ (r out : Rec) (k : String), imageApply r = Except.ok out → k ∉ imageFields →
      rlookup out k = none) ∧
    (∀ (r out : Rec) (k : String), contactApply r = Except.ok out → k ∉ contactFields →
      rlookup out k = none) ∧
    (∀ (r out : Rec) (k : String), textApply r = Except.ok out → k ∉ textFields →
      rlookup out k = none) ∧
    (∀ (r out : Rec) (k : String), assetApply r = Except.ok out → k ∉ assetFields →
      rlookup out k = none) :=
  ⟨fun _ _ _ h hk => productApply_keeps_extras h hk,
   fun _ _ _ h hk => imageApply_drops_extras h hk,
   fun _ _ _ h hk => contactApply_drops_extras h hk,
   fun _ _ _ h hk => textApply_drops_extras h hk,
   fun _ _ _ h hk => assetApply_drops_extras h hk⟩

/-- Witness for C8: one record per category, each carrying the extra
field `foo` and passing its schema; the product keeps `foo`, the other
four validated outputs lack it. -/
theorem schema_extra_field_handling_witness :
    rlookup [("title", Val.vStr "T"), ("price", Val.vNull), ("image", Val.vNull),
        ("link", Val.vNull), ("description", Val.vNull), ("foo", Val.vStr "bar")] "foo" =
      rlookup [("title", Val.vStr "T"), ("foo", Val.vStr "bar")] "foo" ∧
    rlookup [("url", Val.vStr "http://a.com/i.png"), ("alt", Val.vNull), ("width", Val.vNull),
      ("height", Val.vNull)] "foo" = none ∧
    rlookup [("emails", Val.vStrList []), ("phones", Val.vStrList []),
      ("socials", Val.vStrList [])] "foo" = none ∧
    rlookup [("title", Val.vStr ""), ("meta", Val.vStr ""), ("headings", Val.vStrList []),
      ("paragraphs", Val.vStrList [])] "foo" = none ∧
    rlookup [("filename", Val.vStr "f.pdf"), ("url", Val.vStr "http://a.com/f.pdf"),
      ("type", Val.vStr "pdf"), ("size", Val.vNull)] "foo" = none :=
  ⟨schema_extra_field_handling.1 [("title", Val.vStr "T"), ("foo", Val.vStr "bar")]
      [("title", Val.vStr "T"), ("price", Val.vNull), ("image", Val.vNull),
        ("link", Val.vNull), ("description", Val.vNull), ("foo", Val.vStr "bar")]
      "foo" rfl (by decide),
   schema_extra_field_handling.2.1
      [("url", Val.vStr "http://a.com/i.png"), ("foo", Val.vStr "bar")]
      [("url", Val.vStr "http://a.com/i.png"), ("alt", Val.vNull), ("width", Val.vNull),
        ("height", Val.vNull)]
      "foo" rfl (by decide),
   schema_extra_field_handling.2.2.1 [("foo", Val.vStr "bar")]
      [("emails", Val.vStrList []), ("phones", Val.vStrList []), ("socials", Val.vStrList [])]
      "foo" rfl (by decide),
   schema_extra_field_handling.2.2.2.1 [("foo", Val.vStr "bar")]
      [("title", Val.vStr ""), ("meta", Val.vStr ""), ("headings", Val.vStrList []),
        ("paragraphs", Val.vStrList [])]
      "foo" rfl (by decide),
   schema_extra_field_handling.2.2.2.2
      [("filename", Val.vStr "f.pdf"), ("url", Val.vStr "http://a.com/f.pdf"),
        ("type", Val.vStr "pdf"), ("foo", Val.vStr "bar")]
      [("filename", Val.vStr "f.pdf"), ("url", Val.vStr "http://a.com/f.pdf"),
        ("type", Val.vStr "pdf"), ("size", Val.vNull)]
      "foo" rfl (by decide)⟩

/-! ## Validator aggregate threshold: claims C1 and C7 -/

theorem validate_result_eval (th : Rat) (e0 : List VError) (res : SResult) (v : Validated)
    (ne : List VError) (t : Nat) (h : validateRun res = (v, ne, t)) :
    validate_result th e0 res =
      if 0 < t ∧ (e0.length : Rat) / (t : Rat) > th
      then (Except.error "Error threshold exceeded", e0 ++ ne)
      else (Except.ok v, e0 ++ ne) := by
  unfold validate_result
  rw [h]

/-- A product record passing `ProductSchema`. -/
def c1ValidRec : Rec := [("title", Val.vStr "Widget")]

/-- A product record failing `ProductSchema` (empty title). -/
def c1InvalidRec : Rec := [("title", Val.vStr "")]

/-- The validated output of `c1ValidRec`. -/
def c1ValidOut : Rec :=
  [("title", Val.vStr "Widget"), ("price", Val.vNull), ("image", Val.vNull),
   ("link", Val.vNull), ("description", Val.vNull)]

/-- Ten products, six of them invalid. -/
def c1Result : SResult :=
  { products := some (List.replicate 4 c1ValidRec ++ List.replicate 6 c1InvalidRec) }

/-- Ten products, all valid. -/
def c1AllValid : SResult := { products := some (List.replicate 10 c1ValidRec) }

/-- Six errors already sitting in the validator's state before the call
(left over from an earlier use of the same `Validator` instance). -/
def c1Stale : List VError := List.replicate 6 (VError.mk "product" none "seeded" [])

/-- C1 (code bug): the source captures
`invalid_records = len(self.errors)` BEFORE validating, so on a fresh
validator a run with 10 records and 6 failures — ratio 0.6 above the
default 0.5 — raises nothing, against the claim and the function's own
docstring; only stale pre-call errors can trigger the raise, as the
fourth conjunct shows for a run with no failures at all. -/
theorem validator_threshold_ignores_current_run :
    (validate_result (1/2) [] c1Result).1 = Except.ok
      { products := some (List.replicate 4 c1ValidOut), images := none, contacts := none,
        text := none, assets := none, crawl := none } ∧
    ((validate_result (1/2) [] c1Result).2).length = 6 ∧
    ((6 : Rat) / 10 > 1 / 2) ∧
    (validate_result (1/2) c1Stale c1AllValid).1 = Except.error "Error threshold exceeded" := by
  have hrun : validateRun c1Result =
      ({ products := some (List.replicate 4 c1ValidOut), images := none, contacts := none,
         text := none, assets := none, crawl := none },
       (List.range 6).map (fun i =>
         VError.mk "product" (some (4 + i)) "Title is required" c1InvalidRec),
       10) := rfl
  have hrun2 : validateRun c1AllValid =
      ({ products := some (List.replicate 10 c1ValidOut), images := none, contacts := none,
         text := none, assets := none, crawl := none }, [], 10) := rfl
  rw [validate_result_eval _ _ _ _ _ _ hrun, validate_result_eval _ _ _ _ _ _ hrun2]
  rw [if_neg (by norm_num), if_pos (by constructor; norm_num; simp [c1Stale]; norm_num)]
  refine ⟨rfl, rfl, by norm_num, rfl⟩

/-- The raise condition of `validate_result` as the source computes it:
records were seen and the PRE-CALL error count over the total exceeds
the threshold. -/
def thresholdBreached (th : Rat) (errors0 : List VError) (result : SResult) : Prop :=
  0 < (validateRun result).2.2 ∧
  (errors0.length : Rat) / ((validateRun result).2.2 : Rat) > th

/-- Six stale errors in the validator's state. -/
def c7Stale : List VError := List.replicate 6 (VError.mk "product" none "prior" [])

/-- Ten valid products whose validated output is computed and then
discarded by the raise. -/
def c7Result : SResult :=
  { products := some (List.replicate 10 [("title", Val.vStr "Widget")]) }

/-- C7 amended: when the threshold check fires, `validate_result` raises
`ValueError` — the outcome carries no validated output, so the computed
partial result is discarded; only the error log (the validator's
`self.errors` state) remains available to the caller. -/
theorem validator_breach_discards_validated (th : Rat) (e0 : List VError) (res : SResult)
    (h : thresholdBreached th e0 res) :
    (validate_result th e0 res).1 = Except.error "Error threshold exceeded" ∧
    (validate_result th e0 res).2 = e0 ++ (validateRun res).2.1 := by
  rcases hrun : validateRun res with ⟨v, ne, t⟩
  unfold thresholdBreached at h
  rw [hrun] at h
  rw [validate_result_eval th e0 res v ne t hrun, if_pos h]
  simp [hrun]

/-- Witness for C7 at a concrete breaching run. -/
theorem validator_breach_discards_validated_witness :
    thresholdBreached (1/2) c7Stale c7Result ∧
    (validate_result (1/2) c7Stale c7Result).1 = Except.error "Error threshold exceeded" ∧
    (validate_result (1/2) c7Stale c7Result).2 = c7Stale ++ (validateRun c7Result).2.1 := by
  have hb : thresholdBreached (1/2) c7Stale c7Result := by
    unfold thresholdBreached
    have h1 : (validateRun c7Result).2.2 = 10 := rfl
    have h2 : c7Stale.length = 6 := rfl
    rw [h1, h2]
    norm_num
  exact ⟨hb, (validator_breach_discards_validated (1/2) c7Stale c7Result hb).1,
    (validator_breach_discards_validated (1/2) c7Stale c7Result hb).2⟩

/-- C7 counterexample: on a breaching run the already-computed validated
output (ten validated products, second conjunct) is NOT available to the
caller — `validate_result` returns only the raised error, against the
claim that the validator does not discard the partial output on
breach. -/
theorem validator_breach_no_partial_output_cex :
    (validate_result (1/2) c7Stale c7Result).1 = Except.error "Error threshold exceeded" ∧
    (validateRun c7Result).1 =
      { products := some (List.replicate 10 c1ValidOut), images := none, contacts := none,
        text := none, assets := none, crawl := none } := by
  constructor
  · have hrun : validateRun c7Result =
        ({ products := some (List.replicate 10 c1ValidOut), images := none, contacts := none,
           text := none, assets := none, crawl := none }, [], 10) := rfl
    rw [validate_result_eval _ _ _ _ _ _ hrun]
    rw [if_pos (by constructor <;> simp [c7Stale] <;> norm_num)]
  · rfl

/-! ## Change-set disjointness: claim C10 -/

theorem insertPair_gid {α : Type} (P : String × α → Prop) (l : List (String × α))
    (k : String) (v : α) (hl : ∀ p ∈ l, P p) (hkv : P (k, v)) :
    ∀ p ∈ insertPair l k v, P p := by
  intro p hp
  unfold insertPair at hp
  split at hp
  · rcases List.mem_map.mp hp with ⟨q, hq, he⟩
    by_cases hqk : q.1 = k
    · rw [if_pos hqk] at he
      exact he ▸ hkv
    · rw [if_neg hqk] at he
      exact he ▸ hl q hq
  · rcases List.mem_append.mp hp with h | h
    · exact hl p h
    · simp at h
      exact h ▸ hkv

theorem idDict_mem_gid (fields : List String) :
    ∀ (rs : List Rec) (acc : List (String × Rec)),
      (∀ p ∈ acc, generate_id p.2 fields = p.1) →
      ∀ p ∈ rs.foldl (fun a r => insertPair a (generate_id r fields) r) acc,
        generate_id p.2 fields = p.1 := by
  intro rs
  induction rs with
  | nil => intro acc hacc p hp; exact hacc p hp
  | cons r rest ih =>
    intro acc hacc p hp
    rw [List.foldl_cons] at hp
    exact ih (insertPair acc (generate_id r fields) r)
      (insertPair_gid _ acc _ r hacc rfl) p hp

theorem idDict_gid {rs : List Rec} {fields : List String} {p : String × Rec}
    (hp : p ∈ idDict rs fields) : generate_id p.2 fields = p.1 :=
  idDict_mem_gid fields rs [] (by simp) p hp

theorem detectLoop_lookup_eq (current prevData : List (String × List Rec))
    (prevRecIds : List (String × List String)) (kf : List (String × List String)) :
    ∀ (cats : List String) (dt : String), dt ∈ cats →
      ∀ (curRecs : List Rec) (fields : List String),
        alookup current dt = some curRecs → alookup kf dt = some fields →
        (alookup (detectLoop current prevData prevRecIds kf cats).new dt =
          some (diffCategory curRecs ((alookup prevData dt).getD [])
            ((alookup prevRecIds dt).getD []) fields).1 ∧
        alookup (detectLoop current prevData prevRecIds kf cats).updated dt =
          some (diffCategory curRecs ((alookup prevData dt).getD [])
            ((alookup prevRecIds dt).getD []) fields).2.1 ∧
        alookup (detectLoop current prevData prevRecIds kf cats).removed dt =
          some (diffCategory curRecs ((alookup prevData dt).getD [])
            ((alookup prevRecIds dt).getD []) fields).2.2) := by
  intro cats
  induction cats with
  | nil => intro dt hdt; simp at hdt
  | cons c rest ih =>
    intro dt hdt curRecs fields hcur hkf
    by_cases hce : c = dt
    · subst hce
      simp only [detectLoop, hcur, hkf]
      simp [alookup]
    · have hdt' : dt ∈ rest := by
        rcases List.mem_cons.mp hdt with h | h
        · exact absurd h.symm hce
        · exact h
      have hrec := ih dt hdt' curRecs fields hcur hkf
      simp only [detectLoop]
      cases hc1 : alookup current c with
      | none => simpa [hc1] using hrec
      | some cr =>
        cases hc2 : alookup kf c with
        | none => simpa [hc1, hc2] using hrec
        | some fs =>
          simpa [hc1, hc2, alookup, hce] using hrec

/-- C10: for every category the `detect_changes` loop diffs, the three
parts are those of `diffCategory`, and — with `P` the previous identity
set the code used and `C` the current identity set — every new record's
identity is outside `P`, every removed identity is inside `P` and
outside `C`, every updated entry's identity is in both, and no identity
occurs in more than one of the three parts. -/
theorem change_sets_disjoint
    (current : List (String × List Rec)) (prev : Snapshot)
    (kf : Option (List (String × List String))) (dt : String)
    (curRecs : List Rec) (fields : List String)
    (d : List Rec × List UpdatedEntry × List String) (P C : List String)
    (hdt : dt ∈ ["products", "images", "assets"])
    (hcur : alookup current dt = some curRecs)
    (hkf : alookup (effectiveKeyFields kf) dt = some fields)
    (hd : d = diffCategory curRecs ((alookup prev.data dt).getD [])
      ((alookup prev.recordIds dt).getD []) fields)
    (hP : P = prevIdsUsed ((alookup prev.recordIds dt).getD [])
      ((alookup prev.data dt).getD []) fields)
    (hC : C = (idDict curRecs fields).map (fun p => p.1)) :
    alookup (detectChanges current (some prev) kf).new dt = some d.1 ∧
    alookup (detectChanges current (some prev) kf).updated dt = some d.2.1 ∧
    alookup (detectChanges current (some prev) kf).removed dt = some d.2.2 ∧
    (∀ r ∈ d.1, generate_id r fields ∉ P) ∧
    (∀ i ∈ d.2.2, i ∈ P ∧ i ∉ C) ∧
    (∀ u ∈ d.2.1, u.id ∈ P ∧ u.id ∈ C) ∧
    (∀ r ∈ d.1, ∀ u ∈ d.2.1, generate_id r fields ≠ u.id) ∧
    (∀ r ∈ d.1, ∀ i ∈ d.2.2, generate_id r fields ≠ i) ∧
    (∀ u ∈ d.2.1, ∀ i ∈ d.2.2, u.id ≠ i) := by
  have hlook := detectLoop_lookup_eq current prev.data prev.recordIds
    (effectiveKeyFields kf) ["products", "images", "assets"] dt hdt curRecs fields hcur hkf
  have hnew : ∀ r ∈ d.1, generate_id r fields ∉ P := by
    intro r hr
    rw [hd] at hr
    simp only [diffCategory, List.mem_map, List.mem_filter] at hr
    rcases hr with ⟨p, ⟨hp, hnp⟩, he⟩
    rw [← hP] at hnp
    rw [← he, idDict_gid hp]
    simpa using hnp
  have hrem : ∀ i ∈ d.2.2, i ∈ P ∧ i ∉ C := by
    intro i hi
    rw [hd] at hi
    simp only [diffCategory, List.mem_filter] at hi
    rcases hi with ⟨hiP, hiC⟩
    rw [← hP] at hiP
    rw [← hC] at hiC
    exact ⟨hiP, by simpa using hiC⟩
  have hupd : ∀ u ∈ d.2.1, u.id ∈ P ∧ u.id ∈ C := by
    intro u hu
    rw [hd] at hu
    simp only [diffCategory, List.mem_filterMap, List.mem_filter] at hu
    rcases hu with ⟨p, ⟨hp, hpP⟩, hfm⟩
    split at hfm
    · simp at hfm
    · split at hfm
      · rw [Option.some.injEq] at hfm
        have hid : u.id = p.1 := by rw [← hfm]
        rw [hid, hP, hC]
        exact ⟨by simpa using hpP, List.mem_map.mpr ⟨p, hp, rfl⟩⟩
      · simp at hfm
  refine ⟨?_, ?_, ?_, hnew, hrem, hupd, ?_, ?_, ?_⟩
  · simpa [detectChanges, hd] using hlook.1
  · simpa [detectChanges, hd] using hlook.2.1
  · simpa [detectChanges, hd] using hlook.2.2
  · intro r hr u hu
    intro he
    exact (hnew r hr) (he ▸ (hupd u hu).1)
  · intro r hr i hi
    intro he
    exact (hnew r hr) (he ▸ (hrem i hi).1)
  · intro u hu i hi
    intro he
    exact (hrem i hi).2 (he ▸ (hupd u hu).2)

/-- A previous product record. -/
def c10RecA : Rec := [("title", Val.vStr "A"), ("url", Val.vStr "a"), ("price", Val.vStr "1")]

/-- The same product in the current run with a changed price. -/
def c10RecA2 : Rec := [("title", Val.vStr "A"), ("url", Val.vStr "a"), ("price", Val.vStr "2")]

/-- A product present only in the previous run. -/
def c10RecB : Rec := [("title", Val.vStr "B"), ("url", Val.vStr "b")]

/-- A product present only in the current run. -/
def c10RecC : Rec := [("title", Val.vStr "C"), ("url", Val.vStr "c")]

/-- Current result for the C10 witness. -/
def c10Current : List (String × List Rec) := [("products", [c10RecA2, c10RecC])]

/-- Previous snapshot for the C10 witness, with no persisted id list so
the recompute fallback runs. -/
def c10Prev : Snapshot := { data := [("products", [c10RecA, c10RecB])], recordIds := [] }

/-- Witness for C10 at a concrete two-run diff (one updated, one new,
one removed product). -/
theorem change_sets_disjoint_witness :
    alookup (detectChanges c10Current (some c10Prev) none).new "products" =
      some (diffCategory [c10RecA2, c10RecC] [c10RecA, c10RecB] [] ["title", "url"]).1 ∧
    alookup (detectChanges c10Current (some c10Prev) none).updated "products" =
      some (diffCategory [c10RecA2, c10RecC] [c10RecA, c10RecB] [] ["title", "url"]).2.1 ∧
    alookup (detectChanges c10Current (some c10Prev) none).removed "products" =
      some (diffCategory [c10RecA2, c10RecC] [c10RecA, c10RecB] [] ["title", "url"]).2.2 := by
  have h := change_sets_disjoint c10Current c10Prev none "products"
    [c10RecA2, c10RecC] ["title", "url"]
    (diffCategory [c10RecA2, c10RecC] [c10RecA, c10RecB] [] ["title", "url"])
    (prevIdsUsed [] [c10RecA, c10RecB] ["title", "url"])
    ((idDict [c10RecA2, c10RecC] ["title", "url"]).map (fun p => p.1))
    (by decide) rfl rfl rfl rfl rfl
  exact ⟨h.1, h.2.1, h.2.2.1⟩
